import Mathlib

/-!
Verification of the SIP Protocol Python SDK (`sip_protocol` package):
Pedersen commitments on secp256k1 (`commitment.py`), EIP-5564-style stealth
addresses (`stealth.py`), and the viewing-key AEAD layer (`privacy.py`).

Modelling conventions.
* Byte strings are `List Nat` (each entry a byte value `< 256`); hex strings
  are `List Char`.  Python code that can raise is modelled with `Option`
  (`none` = an exception propagates to the caller).
* The secp256k1 operations come from the external `coincurve` /
  `libsecp256k1` library, which is not part of this repository.  The library
  implements the cyclic group of prime order `n` (`CURVE_ORDER`) generated by
  the base point `G`.  We model that group faithfully by representing a
  non-identity point through its discrete logarithm base `G`, a number in
  `[1, n)`; the group operation is addition mod `n` and `G` itself is `1`.
  A compressed point encoding is 33 bytes: a parity prefix byte (2 or 3)
  followed by 32 bytes that are shared by a point and its negation; flipping
  the prefix negates the point, and roughly half of all candidate byte
  strings decode to no point at all — exactly the properties of real
  compressed secp256k1 encodings that the SDK relies on.
* The NUMS generator `H` has an unknown discrete log w.r.t. `G`; every
  commitment definition is therefore parametrised by that scalar `hD`.
  Similarly SHA-256 and the XChaCha20-Poly1305 cipher are external
  primitives and are passed in as function parameters.
-/

/-- secp256k1 curve order, as in `commitment.py` / `stealth.py`. -/
def CURVE_ORDER : Nat :=
  0xFFFFFFFFFFFFFFFFFFFFFFFFFFFFFFFEBAAEDCE6AF48A03BBFD25E8CD0364141

/-- Half of the curve order rounded down; model x-coordinates live in
`[1, halfOrder]`. -/
def halfOrder : Nat := (CURVE_ORDER - 1) / 2

/-- Big-endian value of a byte string (Python `int.from_bytes(b, "big")`). -/
def beVal (b : List Nat) : Nat := b.foldl (fun a x => a * 256 + x) 0

/-- Fixed-length big-endian byte string of a number
(Python `v.to_bytes(len, "big")`, with the value reduced mod `256^len`). -/
def beBytes : Nat → Nat → List Nat
  | 0, _ => []
  | k + 1, v => beBytes k (v / 256) ++ [v % 256]

/-- Value of a single hex digit character, or `none` (Python `bytes.fromhex`
accepts both cases). -/
def hexDigit (c : Char) : Option Nat :=
  if ('0' ≤ c ∧ c ≤ '9') then some (c.toNat - '0'.toNat)
  else if ('a' ≤ c ∧ c ≤ 'f') then some (c.toNat - 'a'.toNat + 10)
  else if ('A' ≤ c ∧ c ≤ 'F') then some (c.toNat - 'A'.toNat + 10)
  else none

/-- Parse a run of hex digits two at a time into bytes
(Python `bytes.fromhex`; an odd-length or non-hex input raises). -/
def parseHexBytes : List Char → Option (List Nat)
  | [] => some []
  | c1 :: c2 :: rest =>
    match hexDigit c1, hexDigit c2 with
    | some a, some b => (parseHexBytes rest).map (fun l => (a * 16 + b) :: l)
    | _, _ => none
  | [_] => none

/-- Model of `crypto.hex_to_bytes`: strip a literal `0x` prefix when present,
then `bytes.fromhex`. -/
def hex_to_bytes (s : List Char) : Option (List Nat) :=
  match s with
  | '0' :: 'x' :: rest => parseHexBytes rest
  | other => parseHexBytes other

/-- Model of `crypto.bytes_to_hex`: `0x` followed by two lowercase hex digits
per byte. -/
def bytes_to_hex (b : List Nat) : List Char :=
  '0' :: 'x' :: (b.map (fun v => [Nat.digitChar (v / 16), Nat.digitChar (v % 16)])).flatten

/-- Compressed encoding of the model point with discrete log `k ∈ [1, n)`:
parity byte 2 or 3 followed by a 32-byte big-endian x-representative shared
with the negated point (models `PublicKey.format(compressed=True)`). -/
def ptEncode (k : Nat) : List Nat :=
  if k ≤ halfOrder then 2 :: beBytes 32 k
  else 3 :: beBytes 32 (CURVE_ORDER - k)

/-- Decode a compressed point encoding (models the `PublicKey(bytes)`
constructor): 33 bytes, parity prefix 2 or 3, x-representative in
`[1, halfOrder]`; everything else — wrong length, bad prefix, x-coordinate
not on the curve, the identity — raises. -/
def ptDecode (b : List Nat) : Option Nat :=
  match b with
  | p :: rest =>
    if rest.length = 32 ∧ (p = 2 ∨ p = 3) then
      let x := beVal rest
      if 1 ≤ x ∧ x ≤ halfOrder then
        some (if p = 2 then x else CURVE_ORDER - x)
      else none
    else none
  | [] => none

/-- Model of coincurve `validate_secret`: the big-endian value of the scalar
byte string must lie in `[1, n)`. -/
def validate_secret (s : List Nat) : Option Nat :=
  let v := beVal s
  if 0 < v ∧ v < CURVE_ORDER then some v else none

/-- Model of `PublicKey.multiply(scalar_bytes)` on the point with dlog `k`:
the scalar is validated as a secret, then the dlog is multiplied mod `n`. -/
def pubMul (k : Nat) (scalarBytes : List Nat) : Option Nat :=
  (validate_secret scalarBytes).map (fun s => s * k % CURVE_ORDER)

/-- Model of `PublicKey.combine`: point addition; producing the identity
raises in libsecp256k1, so it yields `none`. -/
def pubCombine (k1 k2 : Nat) : Option Nat :=
  if (k1 + k2) % CURVE_ORDER = 0 then none else some ((k1 + k2) % CURVE_ORDER)

/-- Model of `PrivateKey(bytes).public_key`: validate the secret, return the
point with that discrete log. -/
def privPub (s : List Nat) : Option Nat :=
  validate_secret s

/-- Model of `commitment._point_multiply(scalar, point_bytes)`:
`PublicKey(point_bytes).multiply(scalar.to_bytes(32, "big"))`, re-encoded
compressed. -/
def point_multiply (scalar : Nat) (pointBytes : List Nat) : Option (List Nat) := do
  let p ← ptDecode pointBytes
  let r ← pubMul p (beBytes 32 scalar)
  pure (ptEncode r)

/-- Model of `commitment._point_add(p1, p2)`. -/
def point_add (b1 b2 : List Nat) : Option (List Nat) := do
  let p1 ← ptDecode b1
  let p2 ← ptDecode b2
  let r ← pubCombine p1 p2
  pure (ptEncode r)

/-- The base generator `G` (`_G_BYTES`): public key of the secret 1, so its
discrete log is 1. -/
def G_BYTES : List Nat := ptEncode 1

/-- The NUMS generator `H` (`_H_BYTES`): its discrete log `hD` w.r.t. `G` is
unknown, so it is a parameter of the development. -/
def H_BYTES (hD : Nat) : List Nat := ptEncode hD

/-- Model of `commitment.commit(value, blinding)` with the blinding supplied
(the claims under study always supply it; `value < 0` cannot arise for a
`Nat` value). -/
def commit (hD : Nat) (value : Nat) (blinding : List Nat) :
    Option (List Char × List Char) :=
  if value ≥ CURVE_ORDER then none
  else if blinding.length ≠ 32 then none
  else
    let r := beVal blinding % CURVE_ORDER
    if r = 0 then none
    else do
      let c ←
        if value = 0 then point_multiply r (H_BYTES hD)
        else do
          let vg ← point_multiply value G_BYTES
          let rh ← point_multiply r (H_BYTES hD)
          point_add vg rh
      pure (bytes_to_hex c, bytes_to_hex blinding)

/-- Model of `commitment.verify_opening(commitment, value, blinding)`: the
whole body sits in a `try` that converts every exception to `False`. -/
def verify_opening (hD : Nat) (commitment : List Char) (value : Nat)
    (blinding : List Char) : Bool :=
  let r : Option Bool := do
    let c ← hex_to_bytes commitment
    let bb ← hex_to_bytes blinding
    let rs := beVal bb % CURVE_ORDER
    let expected ←
      if value = 0 then point_multiply rs (H_BYTES hD)
      else do
        let vg ← point_multiply value G_BYTES
        let rh ← point_multiply rs (H_BYTES hD)
        point_add vg rh
    pure (decide (c = expected))
  match r with
  | some b => b
  | none => false

/-- Model of `commitment.add_commitments(c1, c2)` (no `try`: errors
propagate). -/
def add_commitments (c1 c2 : List Char) : Option (List Char) := do
  let b1 ← hex_to_bytes c1
  let b2 ← hex_to_bytes c2
  let r ← point_add b1 b2
  pure (bytes_to_hex r)

/-- Parity flip of `subtract_commitments`:
`bytes([0x03 if c2_bytes[0] == 0x02 else 0x02]) + c2_bytes[1:]` (2 becomes
3, anything else becomes 2); indexing an empty byte string raises. -/
def flip_parity (b : List Nat) : Option (List Nat) :=
  match b with
  | [] => none
  | h :: t => some ((if h = 2 then 3 else 2) :: t)

/-- Model of `commitment.subtract_commitments(c1, c2)`: negate `c2` by
flipping the parity byte, then add. -/
def subtract_commitments (c1 c2 : List Char) : Option (List Char) := do
  let b1 ← hex_to_bytes c1
  let b2 ← hex_to_bytes c2
  let neg ← flip_parity b2
  let r ← point_add b1 neg
  pure (bytes_to_hex r)

/-- Model of `commitment.add_blindings(b1, b2)`: `(r1 + r2) mod n` as 32
big-endian bytes. -/
def add_blindings (b1 b2 : List Char) : Option (List Char) := do
  let x1 ← hex_to_bytes b1
  let x2 ← hex_to_bytes b2
  pure (bytes_to_hex (beBytes 32 ((beVal x1 + beVal x2) % CURVE_ORDER)))

/-- Model of `commitment.subtract_blindings(b1, b2)`:
`(r1 - r2 + n) mod n` computed over (possibly negative) Python integers. -/
def subtract_blindings (b1 b2 : List Char) : Option (List Char) := do
  let x1 ← hex_to_bytes b1
  let x2 ← hex_to_bytes b2
  let r : Int := ((beVal x1 : Int) - (beVal x2 : Int) + CURVE_ORDER) % CURVE_ORDER
  pure (bytes_to_hex (beBytes 32 r.toNat))

/-- Model of `types.StealthMetaAddress` (frozen dataclass; equality is
component-wise, including the optional label). -/
structure StealthMetaAddress where
  spending_key : List Char
  viewing_key : List Char
  chain : List Char
  label : Option (List Char) := none
deriving DecidableEq, Repr

/-- Model of `types.StealthAddress`. -/
structure StealthAddress where
  address : List Char
  ephemeral_public_key : List Char
  view_tag : Nat
deriving DecidableEq, Repr

/-- Model of `types.StealthAddressRecovery`. -/
structure StealthAddressRecovery where
  stealth_address : List Char
  ephemeral_public_key : List Char
  private_key : List Char
deriving DecidableEq, Repr

/-- Model of `types.EncryptedPayload`. -/
structure EncryptedPayload where
  ciphertext : List Char
  nonce : List Char
deriving DecidableEq, Repr

/-- Model of `stealth.generate_stealth_meta_address(chain, label)`, with the
two `secrets.token_bytes(32)` draws passed in explicitly
(`spRand`, `vpRand`); `PrivateKey` validates each secret. -/
def generate_stealth_meta_address (chain : List Char) (label : Option (List Char))
    (spRand vpRand : List Nat) :
    Option (StealthMetaAddress × List Char × List Char) := do
  let sp ← privPub spRand
  let vp ← privPub vpRand
  pure
    ({ spending_key := bytes_to_hex (ptEncode sp),
       viewing_key := bytes_to_hex (ptEncode vp),
       chain := chain, label := label },
     bytes_to_hex spRand, bytes_to_hex vpRand)

/-- Model of `stealth.generate_stealth_address(meta)`, parametric in the
external SHA-256 function `sha` and with the ephemeral
`secrets.token_bytes(32)` draw passed in as `ephRand`.  No `try`: every
internal failure propagates as an exception (`none`). -/
def generate_stealth_address (sha : List Nat → List Nat)
    (meta : StealthMetaAddress) (ephRand : List Nat) :
    Option (StealthAddress × List Char) := do
  let ephPub ← privPub ephRand
  let skB ← hex_to_bytes meta.spending_key
  let vkB ← hex_to_bytes meta.viewing_key
  let spendPt ← ptDecode skB
  let sharedPt ← pubMul spendPt ephRand
  let sh := sha (ptEncode sharedPt)
  let hashScalar := beVal sh % CURVE_ORDER
  let htg ← privPub (beBytes 32 hashScalar)
  let viewPt ← ptDecode vkB
  let stealthPt ← pubCombine viewPt htg
  let vt ← sh.head?
  pure
    ({ address := bytes_to_hex (ptEncode stealthPt),
       ephemeral_public_key := bytes_to_hex (ptEncode ephPub),
       view_tag := vt },
     bytes_to_hex sh)

/-- Model of `stealth.derive_stealth_private_key(stealth, sp, vp)` (no `try`;
the viewing scalar and hash scalar are added unreduced, then taken mod n). -/
def derive_stealth_private_key (sha : List Nat → List Nat)
    (stealth : StealthAddress) (spending_private_key viewing_private_key : List Char) :
    Option StealthAddressRecovery := do
  let spB ← hex_to_bytes spending_private_key
  let vpB ← hex_to_bytes viewing_private_key
  let epB ← hex_to_bytes stealth.ephemeral_public_key
  let ephPt ← ptDecode epB
  let sharedPt ← pubMul ephPt spB
  let sh := sha (ptEncode sharedPt)
  let s := (beVal vpB + beVal sh) % CURVE_ORDER
  pure
    { stealth_address := stealth.address,
      ephemeral_public_key := stealth.ephemeral_public_key,
      private_key := bytes_to_hex (beBytes 32 s) }

/-- Model of `stealth.check_stealth_address(stealth, sp, vp)`.  The three
`hex_to_bytes` calls sit BEFORE the `try` block in the source, so their
failures propagate (outer `Option`); everything after is inside
`try ... except: return False`. -/
def check_stealth_address (sha : List Nat → List Nat)
    (stealth : StealthAddress) (spending_private_key viewing_private_key : List Char) :
    Option Bool := do
  let spB ← hex_to_bytes spending_private_key
  let vpB ← hex_to_bytes viewing_private_key
  let epB ← hex_to_bytes stealth.ephemeral_public_key
  let inner : Option Bool := do
    let ephPt ← ptDecode epB
    let sharedPt ← pubMul ephPt spB
    let sh := sha (ptEncode sharedPt)
    let t ← sh.head?
    if t ≠ stealth.view_tag then pure false
    else do
      let s := (beVal vpB + beVal sh) % CURVE_ORDER
      let expPt ← privPub (beBytes 32 s)
      let provided ← hex_to_bytes stealth.address
      pure (decide (ptEncode expPt = provided))
  pure (match inner with | some b => b | none => false)

/-- Model of `stealth.encode_stealth_meta_address(meta)`:
`sip:<chain>:<spending_key>:<viewing_key>`. -/
def encode_stealth_meta_address (meta : StealthMetaAddress) : List Char :=
  ('s' :: 'i' :: 'p' :: ':' :: meta.chain) ++
    (':' :: meta.spending_key) ++ (':' :: meta.viewing_key)

/-- Model of Python `str.split(sep)` for a single-character separator: split
at every occurrence, keeping empty segments. -/
def pySplit (sep : Char) : List Char → List (List Char)
  | [] => [[]]
  | c :: rest =>
    if c = sep then [] :: pySplit sep rest
    else
      match pySplit sep rest with
      | h :: t => (c :: h) :: t
      | [] => [[c]]

/-- Model of `stealth.decode_stealth_meta_address(encoded)`: exactly four
colon-separated parts, the first equal to `sip`; the label is never
reconstructed (the dataclass default `None` applies). -/
def decode_stealth_meta_address (encoded : List Char) : Option StealthMetaAddress :=
  match pySplit ':' encoded with
  | [p0, p1, p2, p3] =>
    if p0 = ['s', 'i', 'p'] then
      some { chain := p1, spending_key := p2, viewing_key := p3, label := none }
    else none
  | _ => none

/-- Model of PyCryptodome `ChaCha20_Poly1305.new(key, nonce)` argument
validation: 32-byte key, 8/12/24-byte nonce. -/
def chaChaNew (key nonce : List Nat) : Option Unit :=
  if key.length = 32 ∧ (nonce.length = 8 ∨ nonce.length = 12 ∨ nonce.length = 24)
  then some () else none

/-- Model of `privacy.encrypt_for_viewing_key(viewing_key, plaintext)`,
parametric in the external cipher `ccEnc` (mapping key, nonce, plaintext to
ciphertext and 16-byte tag) and with the 24-byte random nonce draw passed in
explicitly. -/
def encrypt_for_viewing_key
    (ccEnc : List Nat → List Nat → List Nat → List Nat × List Nat)
    (viewing_key : List Char) (plaintext : List Nat) (nonce : List Nat) :
    Option EncryptedPayload := do
  let kb ← hex_to_bytes viewing_key
  let _ ← chaChaNew kb nonce
  let ct := ccEnc kb nonce plaintext
  pure { ciphertext := bytes_to_hex (ct.1 ++ ct.2), nonce := bytes_to_hex nonce }

/-- Model of `privacy.decrypt_with_viewing_key(viewing_key, payload)`,
parametric in the external `decrypt_and_verify` (`ccDec`); the last 16 bytes
of the ciphertext blob are split off as the tag, and a verification failure
raises (the source re-raises the `ValueError`). -/
def decrypt_with_viewing_key
    (ccDec : List Nat → List Nat → List Nat → List Nat → Option (List Nat))
    (viewing_key : List Char) (payload : EncryptedPayload) :
    Option (List Nat) := do
  let kb ← hex_to_bytes viewing_key
  let nb ← hex_to_bytes payload.nonce
  let cwt ← hex_to_bytes payload.ciphertext
  let ct := cwt.take (cwt.length - 16)
  let tag := cwt.drop (cwt.length - 16)
  let _ ← chaChaNew kb nb
  ccDec kb nb ct tag

/-! Helper lemmas about byte strings, hex encoding and the point model. -/

theorem curve_order_pos : 0 < CURVE_ORDER := by decide

theorem curve_order_lt : CURVE_ORDER < 256 ^ 32 := by decide

theorem halfOrder_spec : 2 * halfOrder + 1 = CURVE_ORDER := by decide

theorem beBytes_length (k v : Nat) : (beBytes k v).length = k := by
  induction k generalizing v with
  | zero => rfl
  | succ k ih => simp [beBytes, ih]

theorem beBytes_bytes_lt (k v : Nat) : ∀ x ∈ beBytes k v, x < 256 := by
  induction k generalizing v with
  | zero => simp [beBytes]
  | succ k ih =>
    intro x hx
    simp only [beBytes, List.mem_append, List.mem_singleton] at hx
    rcases hx with hx | hx
    · exact ih _ x hx
    · subst hx; exact Nat.mod_lt _ (by norm_num)

theorem beVal_append_singleton (l : List Nat) (x : Nat) :
    beVal (l ++ [x]) = 256 * beVal l + x := by
  simp [beVal, List.foldl_append, Nat.mul_comm]

theorem beVal_beBytes (k v : Nat) (h : v < 256 ^ k) :
    beVal (beBytes k v) = v := by
  induction k generalizing v with
  | zero =>
    have : v = 0 := Nat.lt_one_iff.mp (by simpa using h)
    simp [beBytes, beVal, this]
  | succ k ih =>
    have hdiv : v / 256 < 256 ^ k := by
      rw [Nat.div_lt_iff_lt_mul (by norm_num)]
      calc v < 256 ^ (k + 1) := h
        _ = 256 ^ k * 256 := by ring
    rw [beBytes, beVal_append_singleton, ih _ hdiv]
    omega

theorem hexDigit_digitChar (a : Nat) (h : a < 16) :
    hexDigit (Nat.digitChar a) = some a := by
  interval_cases a <;> rfl

theorem parseHexBytes_cons (b : Nat) (hb : b < 256) (rest : List Char) :
    parseHexBytes (Nat.digitChar (b / 16) :: Nat.digitChar (b % 16) :: rest) =
      (parseHexBytes rest).map (fun l => b :: l) := by
  have h1 : b / 16 < 16 := by omega
  have h2 : b % 16 < 16 := Nat.mod_lt _ (by norm_num)
  have h3 : b / 16 * 16 + b % 16 = b := by omega
  simp only [parseHexBytes, hexDigit_digitChar _ h1, hexDigit_digitChar _ h2, h3]

theorem parseHexBytes_pairs (bs : List Nat) (h : ∀ x ∈ bs, x < 256) :
    parseHexBytes
      ((bs.map (fun v => [Nat.digitChar (v / 16), Nat.digitChar (v % 16)])).flatten) =
      some bs := by
  induction bs with
  | nil => rfl
  | cons b rest ih =>
    have hb : b < 256 := h b (List.mem_cons_self _ _)
    have hr : ∀ x ∈ rest, x < 256 := fun x hx => h x (List.mem_cons_of_mem _ hx)
    simp only [List.map_cons, List.flatten_cons, List.cons_append, List.nil_append]
    rw [parseHexBytes_cons b hb, ih hr]
    rfl

theorem hex_to_bytes_bytes_to_hex (bs : List Nat) (h : ∀ x ∈ bs, x < 256) :
    hex_to_bytes (bytes_to_hex bs) = some bs := by
  rw [bytes_to_hex, hex_to_bytes]
  exact parseHexBytes_pairs bs h

theorem ptEncode_bytes_lt (k : Nat) : ∀ x ∈ ptEncode k, x < 256 := by
  intro x hx
  rw [ptEncode] at hx
  split at hx <;>
    simp only [List.mem_cons] at hx <;>
    rcases hx with hx | hx <;>
      first
        | omega
        | exact beBytes_bytes_lt _ _ x hx

theorem ptDecode_ptEncode (k : Nat) (h1 : 1 ≤ k) (h2 : k < CURVE_ORDER) :
    ptDecode (ptEncode k) = some k := by
  have horder := halfOrder_spec
  rw [ptEncode]
  by_cases hk : k ≤ halfOrder
  · have hlt : k < 256 ^ 32 := lt_trans h2 curve_order_lt
    rw [if_pos hk, ptDecode]
    simp only [beBytes_length, beVal_beBytes 32 k hlt]
    rw [if_pos (by simp), if_pos ⟨h1, hk⟩]
    simp
  · have hk' : halfOrder < k := Nat.lt_of_not_le hk
    have hlt : CURVE_ORDER - k < 256 ^ 32 := by
      have := curve_order_lt; omega
    rw [if_neg hk, ptDecode]
    simp only [beBytes_length, beVal_beBytes 32 _ hlt]
    have hc2 : 1 ≤ CURVE_ORDER - k ∧ CURVE_ORDER - k ≤ halfOrder := by
      constructor <;> omega
    rw [if_pos (by norm_num : True ∧ ((3 : Nat) = 2 ∨ True)), if_pos hc2,
      if_neg (by norm_num : ¬ (3 : Nat) = 2)]
    congr 1
    omega

theorem validate_secret_beBytes (s : Nat) (h1 : 0 < s) (h2 : s < CURVE_ORDER) :
    validate_secret (beBytes 32 s) = some s := by
  have hlt : s < 256 ^ 32 := lt_trans h2 curve_order_lt
  rw [validate_secret]
  simp only [beVal_beBytes 32 s hlt]
  rw [if_pos ⟨h1, h2⟩]

theorem pubMul_beBytes (k s : Nat) (h1 : 0 < s) (h2 : s < CURVE_ORDER) :
    pubMul k (beBytes 32 s) = some (s * k % CURVE_ORDER) := by
  rw [pubMul, validate_secret_beBytes s h1 h2]
  rfl

theorem point_multiply_encode (s k : Nat) (hs1 : 0 < s) (hs2 : s < CURVE_ORDER)
    (hk1 : 1 ≤ k) (hk2 : k < CURVE_ORDER) :
    point_multiply s (ptEncode k) = some (ptEncode (s * k % CURVE_ORDER)) := by
  rw [point_multiply, ptDecode_ptEncode k hk1 hk2]
  simp only [Option.bind_eq_bind, Option.some_bind]
  rw [pubMul_beBytes k s hs1 hs2]
  rfl

theorem point_add_encode (k l : Nat) (hk1 : 1 ≤ k) (hk2 : k < CURVE_ORDER)
    (hl1 : 1 ≤ l) (hl2 : l < CURVE_ORDER) :
    point_add (ptEncode k) (ptEncode l) =
      if (k + l) % CURVE_ORDER = 0 then none
      else some (ptEncode ((k + l) % CURVE_ORDER)) := by
  rw [point_add, ptDecode_ptEncode k hk1 hk2]
  simp only [Option.bind_eq_bind, Option.some_bind]
  rw [ptDecode_ptEncode l hl1 hl2]
  simp only [Option.some_bind, pubCombine]
  split <;> rfl

theorem coprime_mul_mod_ne (hD s : Nat) (hco : Nat.Coprime hD CURVE_ORDER)
    (hs : s % CURVE_ORDER ≠ 0) : s * hD % CURVE_ORDER ≠ 0 := by
  intro h
  have hdvd : CURVE_ORDER ∣ s * hD := Nat.dvd_of_mod_eq_zero h
  have hds : CURVE_ORDER ∣ s := Nat.Coprime.dvd_of_dvd_mul_right hco.symm hdvd
  exact hs (Nat.mod_eq_zero_of_dvd hds)

theorem mod_ne_zero_pos (s : Nat) (h : s % CURVE_ORDER ≠ 0) :
    0 < s % CURVE_ORDER := Nat.pos_of_ne_zero h

theorem ptDecode_ptEncode_zero : ptDecode (ptEncode 0) = none := by decide

/-- Flipping the parity byte of a compressed encoding negates the point. -/
theorem flip_parity_ptEncode (k : Nat) (h1 : 1 ≤ k) (h2 : k < CURVE_ORDER) :
    flip_parity (ptEncode k) = some (ptEncode (CURVE_ORDER - k)) := by
  have horder := halfOrder_spec
  rw [ptEncode, ptEncode]
  by_cases hk : k ≤ halfOrder
  · rw [if_pos hk, if_neg (by omega : ¬ CURVE_ORDER - k ≤ halfOrder)]
    have : CURVE_ORDER - (CURVE_ORDER - k) = k := by omega
    rw [this, flip_parity, if_pos rfl]
  · rw [if_neg hk, if_pos (by omega : CURVE_ORDER - k ≤ halfOrder), flip_parity]
    rw [if_neg (by norm_num : ¬ (3 : Nat) = 2)]

theorem point_multiply_G (v : Nat) (h1 : 0 < v) (h2 : v < CURVE_ORDER) :
    point_multiply v G_BYTES = some (ptEncode v) := by
  rw [G_BYTES]
  have := point_multiply_encode v 1 h1 h2 (le_refl 1) (by decide)
  rwa [Nat.mul_one, Nat.mod_eq_of_lt h2] at this

/-- Shared `v*G + r*H` pipeline of `commit` and `verify_opening`, evaluated
under an arbitrary continuation `f` (the elaborated `do` blocks push the
continuation into both branches of the `value == 0` test). -/
theorem commit_pipeline_bind {α : Type} (hD v r : Nat) (f : List Nat → Option α)
    (hhD1 : 1 ≤ hD) (hhD2 : hD < CURVE_ORDER)
    (hr0 : 0 < r) (hrN : r < CURVE_ORDER) (hv : v < CURVE_ORDER) :
    (if v = 0 then (point_multiply r (H_BYTES hD)).bind f
     else (point_multiply v G_BYTES).bind fun vg =>
       (point_multiply r (H_BYTES hD)).bind fun rh =>
         (point_add vg rh).bind f) =
      if v = 0 then f (ptEncode (r * hD % CURVE_ORDER))
      else if r * hD % CURVE_ORDER = 0 then none
      else if (v + r * hD) % CURVE_ORDER = 0 then none
      else f (ptEncode ((v + r * hD) % CURVE_ORDER)) := by
  have hmulH : point_multiply r (H_BYTES hD) =
      some (ptEncode (r * hD % CURVE_ORDER)) := by
    rw [H_BYTES]
    exact point_multiply_encode r hD hr0 hrN hhD1 hhD2
  by_cases hv0 : v = 0
  · rw [if_pos hv0, if_pos hv0, hmulH]
    simp only [Option.some_bind]
  · have hv1 : 1 ≤ v := Nat.pos_of_ne_zero hv0
    rw [if_neg hv0, if_neg hv0]
    simp only [point_multiply_G v hv1 hv, Option.some_bind, hmulH]
    by_cases hrhd : r * hD % CURVE_ORDER = 0
    · rw [if_pos hrhd, hrhd, point_add]
      simp only [Option.bind_eq_bind, ptDecode_ptEncode v hv1 hv, Option.some_bind,
        ptDecode_ptEncode_zero, Option.none_bind]
    · rw [if_neg hrhd,
        point_add_encode v (r * hD % CURVE_ORDER) hv1 hv
          (Nat.pos_of_ne_zero hrhd) (Nat.mod_lt _ curve_order_pos),
        Nat.add_mod_mod]
      split
      · rfl
      · rfl

/-- Closed form of a successful `commit`: the commitment is the encoding of
`(v + r*hD) mod n` with `r` the reduced blinding scalar. -/
theorem commit_inv (hD v : Nat) (blinding : List Nat) (cHex bHex : List Char)
    (hhD1 : 1 ≤ hD) (hhD2 : hD < CURVE_ORDER)
    (h : commit hD v blinding = some (cHex, bHex)) :
    v < CURVE_ORDER ∧ blinding.length = 32 ∧
      beVal blinding % CURVE_ORDER ≠ 0 ∧
      cHex = bytes_to_hex
        (ptEncode ((v + beVal blinding % CURVE_ORDER * hD) % CURVE_ORDER)) ∧
      bHex = bytes_to_hex blinding ∧
      (v ≠ 0 → (beVal blinding % CURVE_ORDER * hD % CURVE_ORDER ≠ 0 ∧
        (v + beVal blinding % CURVE_ORDER * hD) % CURVE_ORDER ≠ 0)) := by
  rw [commit] at h
  by_cases hv : v ≥ CURVE_ORDER
  · rw [if_pos hv] at h; exact absurd h (by simp)
  rw [if_neg hv] at h
  by_cases hlen : blinding.length ≠ 32
  · rw [if_pos hlen] at h; exact absurd h (by simp)
  rw [if_neg hlen] at h
  simp only at h
  by_cases hr : beVal blinding % CURVE_ORDER = 0
  · rw [if_pos hr] at h; exact absurd h (by simp)
  rw [if_neg hr] at h
  have hvlt : v < CURVE_ORDER := Nat.lt_of_not_le hv
  have hr0 : 0 < beVal blinding % CURVE_ORDER := Nat.pos_of_ne_zero hr
  have hrN : beVal blinding % CURVE_ORDER < CURVE_ORDER :=
    Nat.mod_lt _ curve_order_pos
  refine ⟨hvlt, not_ne_iff.mp hlen, hr, ?_⟩
  simp only [Option.pure_def, Option.bind_eq_bind] at h
  rw [commit_pipeline_bind hD v (beVal blinding % CURVE_ORDER)
    (fun y => some (bytes_to_hex y, bytes_to_hex blinding))
    hhD1 hhD2 hr0 hrN hvlt] at h
  by_cases hv0 : v = 0
  · rw [if_pos hv0, Option.some_inj] at h
    subst hv0
    injection h with h1 h2
    refine ⟨?_, h2.symm, fun hc => absurd rfl hc⟩
    rw [← h1, Nat.zero_add]
  · rw [if_neg hv0] at h
    by_cases hrhd : beVal blinding % CURVE_ORDER * hD % CURVE_ORDER = 0
    · rw [if_pos hrhd] at h
      exact absurd h (by simp)
    rw [if_neg hrhd] at h
    by_cases hz : (v + beVal blinding % CURVE_ORDER * hD) % CURVE_ORDER = 0
    · rw [if_pos hz] at h
      exact absurd h (by simp)
    rw [if_neg hz, Option.some_inj] at h
    injection h with h1 h2
    exact ⟨h1.symm, h2.symm, fun _ => ⟨hrhd, hz⟩⟩

/-- Evaluation of `commit` when the inputs pass the entry checks and the
`r*H` scalar is invertible mod `n`. -/
theorem commit_eq (hD v : Nat) (blinding : List Nat)
    (hhD1 : 1 ≤ hD) (hhD2 : hD < CURVE_ORDER)
    (hv : v < CURVE_ORDER) (hlen : blinding.length = 32)
    (hr : beVal blinding % CURVE_ORDER ≠ 0)
    (hrhd : beVal blinding % CURVE_ORDER * hD % CURVE_ORDER ≠ 0) :
    commit hD v blinding =
      if (v + beVal blinding % CURVE_ORDER * hD) % CURVE_ORDER = 0 then none
      else some
        (bytes_to_hex (ptEncode ((v + beVal blinding % CURVE_ORDER * hD) % CURVE_ORDER)),
         bytes_to_hex blinding) := by
  rw [commit, if_neg (not_le.mpr hv), if_neg (not_ne_iff.mpr hlen)]
  simp only [Option.pure_def, Option.bind_eq_bind]
  rw [if_neg hr, commit_pipeline_bind hD v (beVal blinding % CURVE_ORDER)
    (fun y => some (bytes_to_hex y, bytes_to_hex blinding))
    hhD1 hhD2 (Nat.pos_of_ne_zero hr) (Nat.mod_lt _ curve_order_pos) hv]
  by_cases hv0 : v = 0
  · subst hv0
    rw [if_pos rfl, Nat.zero_add, if_neg hrhd]
  · rw [if_neg hv0, if_neg hrhd]

theorem verify_opening_eval (hD v : Nat) (cBytes blinding : List Nat)
    (hcB : ∀ x ∈ cBytes, x < 256) (hbB : ∀ x ∈ blinding, x < 256)
    (hhD1 : 1 ≤ hD) (hhD2 : hD < CURVE_ORDER) (hv : v < CURVE_ORDER)
    (hr : beVal blinding % CURVE_ORDER ≠ 0) :
    verify_opening hD (bytes_to_hex cBytes) v (bytes_to_hex blinding) =
      if v = 0 then
        decide (cBytes = ptEncode (beVal blinding % CURVE_ORDER * hD % CURVE_ORDER))
      else if beVal blinding % CURVE_ORDER * hD % CURVE_ORDER = 0 then false
      else if (v + beVal blinding % CURVE_ORDER * hD) % CURVE_ORDER = 0 then false
      else decide
        (cBytes = ptEncode ((v + beVal blinding % CURVE_ORDER * hD) % CURVE_ORDER)) := by
  rw [verify_opening]
  simp only [hex_to_bytes_bytes_to_hex cBytes hcB, hex_to_bytes_bytes_to_hex blinding hbB,
    Option.bind_eq_bind, Option.some_bind, Option.pure_def]
  rw [commit_pipeline_bind hD v (beVal blinding % CURVE_ORDER)
    (fun expected => some (decide (cBytes = expected)))
    hhD1 hhD2 (Nat.pos_of_ne_zero hr) (Nat.mod_lt _ curve_order_pos) hv]
  by_cases hv0 : v = 0
  · rw [if_pos hv0, if_pos hv0]
  rw [if_neg hv0, if_neg hv0]
  by_cases hrhd : beVal blinding % CURVE_ORDER * hD % CURVE_ORDER = 0
  · rw [if_pos hrhd, if_pos hrhd]
  rw [if_neg hrhd, if_neg hrhd]
  by_cases hz : (v + beVal blinding % CURVE_ORDER * hD) % CURVE_ORDER = 0
  · rw [if_pos hz, if_pos hz]
  rw [if_neg hz, if_neg hz]

theorem validate_secret_inv (s : List Nat) (v : Nat)
    (h : validate_secret s = some v) :
    v = beVal s ∧ 0 < beVal s ∧ beVal s < CURVE_ORDER := by
  rw [validate_secret] at h
  by_cases hc : 0 < beVal s ∧ beVal s < CURVE_ORDER
  · rw [if_pos hc, Option.some_inj] at h
    exact ⟨h.symm, hc.1, hc.2⟩
  · rw [if_neg hc] at h
    exact absurd h (by simp)

theorem validate_secret_beVal (s : List Nat) (h1 : 0 < beVal s)
    (h2 : beVal s < CURVE_ORDER) : validate_secret s = some (beVal s) := by
  rw [validate_secret]
  rw [if_pos ⟨h1, h2⟩]

/-! Results about the claims on the commitment engine. -/

/-- Claim C2: opening correctness.  For every value `v ∈ [0, n)` and 32-byte
blinding whose big-endian value lies in `[1, n)`, `verify_opening` accepts
the commitment produced by `commit(v, blinding)` at the same value and
blinding.  (`hD` is the unknown discrete log of the NUMS generator `H`; the
success of `commit` is the claim's presupposition that a commitment
exists.) -/
theorem opening_correctness (hD v : Nat) (blinding : List Nat) (cHex bHex : List Char)
    (hhD1 : 1 ≤ hD) (hhD2 : hD < CURVE_ORDER)
    (hbytes : ∀ x ∈ blinding, x < 256)
    (hr1 : 1 ≤ beVal blinding) (hr2 : beVal blinding < CURVE_ORDER)
    (hv : v < CURVE_ORDER)
    (hcommit : commit hD v blinding = some (cHex, bHex)) :
    verify_opening hD cHex v bHex = true := by
  obtain ⟨hvlt, hlen, hrmod, hc, hb, hcond⟩ :=
    commit_inv hD v blinding cHex bHex hhD1 hhD2 hcommit
  subst hc
  subst hb
  rw [verify_opening_eval hD v _ blinding (ptEncode_bytes_lt _) hbytes hhD1 hhD2 hvlt hrmod]
  by_cases hv0 : v = 0
  · subst hv0
    rw [if_pos rfl, Nat.zero_add]
    simp
  · obtain ⟨hrhd, hz⟩ := hcond hv0
    rw [if_neg hv0, if_neg hrhd, if_neg hz]
    simp

/-- Witness for C2 at `hD = 2`, `v = 5`, blinding value 7: the commitment is
the encoding of `5 + 7*2 = 19`. -/
theorem opening_correctness_witness :
    verify_opening 2 (bytes_to_hex (ptEncode 19)) 5 (bytes_to_hex (beBytes 32 7)) = true :=
  opening_correctness 2 5 (beBytes 32 7) (bytes_to_hex (ptEncode 19))
    (bytes_to_hex (beBytes 32 7)) (by decide) (by decide)
    (fun x hx => beBytes_bytes_lt 32 7 x hx) (by decide) (by decide) (by decide)
    (by decide)

/-- Claim C10: `verify_opening` depends on the blinding argument only through
its value modulo `n`: two 32-byte blindings in the same residue class give
the same verdict on every commitment string and value. -/
theorem opening_blinding_mod_invariance (hD v : Nat) (C : List Char) (r r' : List Nat)
    (hlen : r.length = 32) (hlen' : r'.length = 32)
    (hb : ∀ x ∈ r, x < 256) (hb' : ∀ x ∈ r', x < 256)
    (hmod : beVal r % CURVE_ORDER = beVal r' % CURVE_ORDER) :
    verify_opening hD C v (bytes_to_hex r) = verify_opening hD C v (bytes_to_hex r') := by
  rw [verify_opening, verify_opening]
  simp only [hex_to_bytes_bytes_to_hex r hb, hex_to_bytes_bytes_to_hex r' hb',
    Option.bind_eq_bind, Option.pure_def]
  cases hex_to_bytes C with
  | none => rfl
  | some c => simp only [Option.some_bind, hmod]

/-- Witness for C10: blinding byte strings of values 1 and `n + 1` are
distinct but congruent mod `n`, and verify identically against the
commitment `1*G + 1*(2*G)` (with `hD = 2`). -/
theorem opening_blinding_mod_invariance_witness :
    verify_opening 2 (bytes_to_hex (ptEncode 3)) 1 (bytes_to_hex (beBytes 32 1)) =
      verify_opening 2 (bytes_to_hex (ptEncode 3)) 1
        (bytes_to_hex (beBytes 32 (CURVE_ORDER + 1))) :=
  opening_blinding_mod_invariance 2 1 (bytes_to_hex (ptEncode 3))
    (beBytes 32 1) (beBytes 32 (CURVE_ORDER + 1))
    (beBytes_length 32 1) (beBytes_length 32 (CURVE_ORDER + 1))
    (fun x hx => beBytes_bytes_lt 32 1 x hx)
    (fun x hx => beBytes_bytes_lt 32 (CURVE_ORDER + 1) x hx)
    (by decide)

set_option maxRecDepth 10000 in
/-- Claim C6 fails as stated: with `hD = 2`, `v1 = 2 ≥ v2 = 1` and equal
32-byte blindings of value 1, `subtract_blindings` yields the zero scalar,
`verify_opening` hits the invalid zero scalar in `r*H` (the `multiply` call
raises, the `try` turns it into `False`), and the difference commitment does
not open to `v1 - v2`. -/
theorem subtract_homomorphism_counterexample :
    (do
      let p1 ← commit 2 2 (beBytes 32 1)
      let p2 ← commit 2 1 (beBytes 32 1)
      let cs ← subtract_commitments p1.1 p2.1
      let rb ← subtract_blindings p1.2 p2.2
      some (verify_opening 2 cs 1 rb)) = some false := by decide

/-- Claim C6 (amended): the homomorphic subtraction law holds when the two
blinding scalars are additionally distinct mod `n` (and the input
commitments and the subtracted commitment exist): the difference commitment
opens to `v1 - v2` under `subtract_blindings(r1, r2)`. -/
theorem subtract_homomorphism (hD v1 v2 : Nat) (r1 r2 : List Nat)
    (c1 b1 c2 b2 cS rbh : List Char)
    (hco : Nat.Coprime hD CURVE_ORDER) (hhD1 : 1 ≤ hD) (hhD2 : hD < CURVE_ORDER)
    (hby1 : ∀ x ∈ r1, x < 256) (hby2 : ∀ x ∈ r2, x < 256)
    (h1 : commit hD v1 r1 = some (c1, b1))
    (h2 : commit hD v2 r2 = some (c2, b2))
    (hv21 : v2 ≤ v1)
    (hneq : beVal r1 % CURVE_ORDER ≠ beVal r2 % CURVE_ORDER)
    (hsub : subtract_commitments c1 c2 = some cS)
    (hrb : subtract_blindings b1 b2 = some rbh) :
    verify_opening hD cS (v1 - v2) rbh = true := by
  obtain ⟨hv1, hlen1, hr1, hc1, hb1, hcond1⟩ :=
    commit_inv hD v1 r1 c1 b1 hhD1 hhD2 h1
  obtain ⟨hv2, hlen2, hr2, hc2, hb2, hcond2⟩ :=
    commit_inv hD v2 r2 c2 b2 hhD1 hhD2 h2
  subst hc1; subst hb1; subst hc2; subst hb2
  have hr1m : beVal r1 % CURVE_ORDER % CURVE_ORDER ≠ 0 := by
    rwa [Nat.mod_eq_of_lt (Nat.mod_lt _ curve_order_pos)]
  have hr2m : beVal r2 % CURVE_ORDER % CURVE_ORDER ≠ 0 := by
    rwa [Nat.mod_eq_of_lt (Nat.mod_lt _ curve_order_pos)]
  have hk1ne : (v1 + beVal r1 % CURVE_ORDER * hD) % CURVE_ORDER ≠ 0 := by
    by_cases hv0 : v1 = 0
    · subst hv0; rw [Nat.zero_add]; exact coprime_mul_mod_ne hD _ hco hr1m
    · exact (hcond1 hv0).2
  have hk2ne : (v2 + beVal r2 % CURVE_ORDER * hD) % CURVE_ORDER ≠ 0 := by
    by_cases hv0 : v2 = 0
    · subst hv0; rw [Nat.zero_add]; exact coprime_mul_mod_ne hD _ hco hr2m
    · exact (hcond2 hv0).2
  have hk1lt : (v1 + beVal r1 % CURVE_ORDER * hD) % CURVE_ORDER < CURVE_ORDER :=
    Nat.mod_lt _ curve_order_pos
  have hk2lt : (v2 + beVal r2 % CURVE_ORDER * hD) % CURVE_ORDER < CURVE_ORDER :=
    Nat.mod_lt _ curve_order_pos
  -- evaluate the parity-flip subtraction on the two encodings
  rw [subtract_commitments] at hsub
  simp only [hex_to_bytes_bytes_to_hex _ (ptEncode_bytes_lt _),
    Option.bind_eq_bind, Option.some_bind, Option.pure_def] at hsub
  rw [flip_parity_ptEncode _ (Nat.pos_of_ne_zero hk2ne) hk2lt] at hsub
  simp only [Option.some_bind] at hsub
  rw [point_add_encode _ _ (Nat.pos_of_ne_zero hk1ne) hk1lt
    (by omega) (by omega)] at hsub
  by_cases hKd : ((v1 + beVal r1 % CURVE_ORDER * hD) % CURVE_ORDER +
      (CURVE_ORDER - (v2 + beVal r2 % CURVE_ORDER * hD) % CURVE_ORDER))
      % CURVE_ORDER = 0
  · rw [if_pos hKd] at hsub
    exact absurd hsub (by simp)
  rw [if_neg hKd, Option.some_bind, Option.some_inj] at hsub
  -- evaluate the blinding subtraction
  rw [subtract_blindings] at hrb
  simp only [hex_to_bytes_bytes_to_hex r1 hby1, hex_to_bytes_bytes_to_hex r2 hby2,
    Option.bind_eq_bind, Option.some_bind, Option.pure_def, Option.some_inj] at hrb
  -- facts about the reduced blinding difference
  have hNpos : (0 : Int) < CURVE_ORDER := by exact_mod_cast curve_order_pos
  have hNne : (CURVE_ORDER : Int) ≠ 0 := hNpos.ne'
  have hrdI : (((((beVal r1 : Int) - (beVal r2 : Int) + CURVE_ORDER) % CURVE_ORDER).toNat : Int)) =
      ((beVal r1 : Int) - (beVal r2 : Int) + CURVE_ORDER) % CURVE_ORDER :=
    Int.toNat_of_nonneg (Int.emod_nonneg _ hNne)
  have hrdlt : (((beVal r1 : Int) - (beVal r2 : Int) + CURVE_ORDER) % CURVE_ORDER).toNat
      < CURVE_ORDER := by
    have := Int.emod_lt_of_pos ((beVal r1 : Int) - (beVal r2 : Int) + CURVE_ORDER)
      (by exact_mod_cast curve_order_pos : (0:Int) < CURVE_ORDER)
    omega
  have hrdsum : (((beVal r1 : Int) - (beVal r2 : Int) + CURVE_ORDER) % CURVE_ORDER).toNat +
      beVal r2 % CURVE_ORDER ≡ beVal r1 % CURVE_ORDER [MOD CURVE_ORDER] := by
    rw [Nat.modEq_iff_dvd]
    push_cast
    rw [hrdI]
    have step : ((beVal r1 : Int) - (beVal r2 : Int) + CURVE_ORDER) % CURVE_ORDER +
        (beVal r2 : Int) % CURVE_ORDER ≡ (beVal r1 : Int) % CURVE_ORDER
        [ZMOD (CURVE_ORDER : Int)] := by
      calc ((beVal r1 : Int) - (beVal r2 : Int) + CURVE_ORDER) % CURVE_ORDER +
          (beVal r2 : Int) % CURVE_ORDER
          ≡ ((beVal r1 : Int) - (beVal r2 : Int) + CURVE_ORDER) + (beVal r2 : Int)
            [ZMOD (CURVE_ORDER : Int)] :=
            Int.ModEq.add (Int.emod_emod_of_dvd _ dvd_rfl) (Int.emod_emod_of_dvd _ dvd_rfl)
        _ = (beVal r1 : Int) + CURVE_ORDER := by ring
        _ ≡ (beVal r1 : Int) + 0 [ZMOD (CURVE_ORDER : Int)] :=
            Int.ModEq.add_left _ (Int.modEq_zero_iff_dvd.mpr dvd_rfl)
        _ = (beVal r1 : Int) := by ring
        _ ≡ (beVal r1 : Int) % CURVE_ORDER [ZMOD (CURVE_ORDER : Int)] :=
            (Int.emod_emod_of_dvd _ dvd_rfl).symm
    exact step.dvd
  have hrdne : (((beVal r1 : Int) - (beVal r2 : Int) + CURVE_ORDER) % CURVE_ORDER).toNat ≠ 0 := by
    intro h0
    apply hneq
    have := hrdsum
    rw [h0, Nat.zero_add] at this
    calc beVal r1 % CURVE_ORDER = beVal r1 % CURVE_ORDER % CURVE_ORDER :=
          (Nat.mod_eq_of_lt (Nat.mod_lt _ curve_order_pos)).symm
      _ = beVal r2 % CURVE_ORDER % CURVE_ORDER := this.symm
      _ = beVal r2 % CURVE_ORDER := Nat.mod_eq_of_lt (Nat.mod_lt _ curve_order_pos)
  -- the key modular identity
  have key : ((v1 + beVal r1 % CURVE_ORDER * hD) % CURVE_ORDER +
      (CURVE_ORDER - (v2 + beVal r2 % CURVE_ORDER * hD) % CURVE_ORDER)) % CURVE_ORDER =
      ((v1 - v2) +
        (((beVal r1 : Int) - (beVal r2 : Int) + CURVE_ORDER) % CURVE_ORDER).toNat * hD)
        % CURVE_ORDER := by
    show Nat.ModEq CURVE_ORDER _ _
    apply Nat.ModEq.add_right_cancel'
      ((v2 + beVal r2 % CURVE_ORDER * hD) % CURVE_ORDER)
    have heq1 : (v1 + beVal r1 % CURVE_ORDER * hD) % CURVE_ORDER +
        (CURVE_ORDER - (v2 + beVal r2 % CURVE_ORDER * hD) % CURVE_ORDER) +
        (v2 + beVal r2 % CURVE_ORDER * hD) % CURVE_ORDER =
        (v1 + beVal r1 % CURVE_ORDER * hD) % CURVE_ORDER + CURVE_ORDER := by
      omega
    rw [heq1]
    calc (v1 + beVal r1 % CURVE_ORDER * hD) % CURVE_ORDER + CURVE_ORDER
        ≡ (v1 + beVal r1 % CURVE_ORDER * hD) % CURVE_ORDER + 0 [MOD CURVE_ORDER] :=
          Nat.ModEq.add_left _ ((Nat.modEq_zero_iff_dvd).mpr dvd_rfl)
      _ = (v1 + beVal r1 % CURVE_ORDER * hD) % CURVE_ORDER := by ring
      _ ≡ v1 + beVal r1 % CURVE_ORDER * hD [MOD CURVE_ORDER] := Nat.mod_modEq _ _
      _ ≡ v1 + ((((beVal r1 : Int) - (beVal r2 : Int) + CURVE_ORDER) % CURVE_ORDER).toNat +
          beVal r2 % CURVE_ORDER) * hD [MOD CURVE_ORDER] :=
          Nat.ModEq.add_left _ (Nat.ModEq.mul_right hD hrdsum.symm)
      _ = (v1 - v2) +
          (((beVal r1 : Int) - (beVal r2 : Int) + CURVE_ORDER) % CURVE_ORDER).toNat * hD +
          (v2 + beVal r2 % CURVE_ORDER * hD) := by
          rw [Nat.add_mul]
          omega
      _ ≡ (v1 - v2) +
          (((beVal r1 : Int) - (beVal r2 : Int) + CURVE_ORDER) % CURVE_ORDER).toNat * hD +
          (v2 + beVal r2 % CURVE_ORDER * hD) % CURVE_ORDER [MOD CURVE_ORDER] :=
          Nat.ModEq.add_left _ (Nat.mod_modEq _ _).symm
  -- evaluate the final verification
  subst hsub
  subst hrb
  have hrdbytes : beVal (beBytes 32
      ((((beVal r1 : Int) - (beVal r2 : Int) + CURVE_ORDER) % CURVE_ORDER).toNat)) =
      (((beVal r1 : Int) - (beVal r2 : Int) + CURVE_ORDER) % CURVE_ORDER).toNat :=
    beVal_beBytes 32 _ (lt_trans hrdlt curve_order_lt)
  have hrdmod : beVal (beBytes 32
      ((((beVal r1 : Int) - (beVal r2 : Int) + CURVE_ORDER) % CURVE_ORDER).toNat))
      % CURVE_ORDER =
      (((beVal r1 : Int) - (beVal r2 : Int) + CURVE_ORDER) % CURVE_ORDER).toNat := by
    rw [hrdbytes, Nat.mod_eq_of_lt hrdlt]
  rw [verify_opening_eval hD (v1 - v2) _ _ (ptEncode_bytes_lt _)
    (beBytes_bytes_lt 32 _) hhD1 hhD2 (Nat.lt_of_le_of_lt (Nat.sub_le v1 v2) hv1)
    (by rw [hrdmod]; exact hrdne)]
  simp only [hrdmod]
  have hrdhd : (((beVal r1 : Int) - (beVal r2 : Int) + CURVE_ORDER) % CURVE_ORDER).toNat * hD
      % CURVE_ORDER ≠ 0 :=
    coprime_mul_mod_ne hD _ hco (by rwa [Nat.mod_eq_of_lt hrdlt])
  by_cases hvd : v1 - v2 = 0
  · rw [if_pos hvd]
    rw [hvd] at key
    rw [Nat.zero_add] at key
    rw [key]
    simp
  · rw [if_neg hvd, if_neg hrdhd]
    have hKd2 : ((v1 - v2) +
        (((beVal r1 : Int) - (beVal r2 : Int) + CURVE_ORDER) % CURVE_ORDER).toNat * hD)
        % CURVE_ORDER ≠ 0 := by
      rw [← key]; exact hKd
    rw [if_neg hKd2, key]
    simp

/-- Witness for the amended C6 at `hD = 2`, `v1 = 2`, `v2 = 1`, blindings 2
and 1: `C1 = 6*G`, `C2 = 3*G`, the difference is `3*G`, which opens to 1
with blinding 1. -/
theorem subtract_homomorphism_witness :
    verify_opening 2 (bytes_to_hex (ptEncode 3)) (2 - 1) (bytes_to_hex (beBytes 32 1)) = true :=
  subtract_homomorphism 2 2 1 (beBytes 32 2) (beBytes 32 1)
    (bytes_to_hex (ptEncode 6)) (bytes_to_hex (beBytes 32 2))
    (bytes_to_hex (ptEncode 3)) (bytes_to_hex (beBytes 32 1))
    (bytes_to_hex (ptEncode 3)) (bytes_to_hex (beBytes 32 1))
    (by decide) (by decide) (by decide)
    (fun x hx => beBytes_bytes_lt 32 2 x hx)
    (fun x hx => beBytes_bytes_lt 32 1 x hx)
    (by decide) (by decide) (by decide) (by decide) (by decide) (by decide)

set_option maxRecDepth 10000 in
/-- Claim C1 fails as stated: with `hD = 2`, values `v1 = v2 = 1` and the
32-byte blindings of values `1` and `n - 1` (so `v1 + v2 < n`), the two
commitments exist and add fine, but `add_blindings` yields the zero scalar
and `commit(v1 + v2, add_blindings(r1, r2))` raises its zero-blinding error,
so the claimed equality fails. -/
theorem add_homomorphism_counterexample :
    (do
      let p1 ← commit 2 1 (beBytes 32 1)
      let p2 ← commit 2 1 (beBytes 32 (CURVE_ORDER - 1))
      add_commitments p1.1 p2.1) ≠
    (do
      let p1 ← commit 2 1 (beBytes 32 1)
      let p2 ← commit 2 1 (beBytes 32 (CURVE_ORDER - 1))
      let bh ← add_blindings p1.2 p2.2
      let bb ← hex_to_bytes bh
      let p ← commit 2 2 bb
      some p.1) := by decide

/-- Claim C1 (amended): the homomorphic addition law holds whenever the sum
of the blinding scalars is additionally nonzero mod `n` (and the two input
commitments exist); both sides are then equal even in the identity-sum
corner, where both raise. -/
theorem add_homomorphism (hD v1 v2 : Nat) (r1 r2 : List Nat)
    (c1 b1 c2 b2 : List Char)
    (hco : Nat.Coprime hD CURVE_ORDER) (hhD1 : 1 ≤ hD) (hhD2 : hD < CURVE_ORDER)
    (hby1 : ∀ x ∈ r1, x < 256) (hby2 : ∀ x ∈ r2, x < 256)
    (h1 : commit hD v1 r1 = some (c1, b1))
    (h2 : commit hD v2 r2 = some (c2, b2))
    (hsum : v1 + v2 < CURVE_ORDER)
    (hrb : (beVal r1 + beVal r2) % CURVE_ORDER ≠ 0) :
    add_commitments c1 c2 =
      (do
        let bh ← add_blindings b1 b2
        let bb ← hex_to_bytes bh
        let p ← commit hD (v1 + v2) bb
        some p.1) := by
  obtain ⟨hv1, hlen1, hr1, hc1, hb1, hcond1⟩ :=
    commit_inv hD v1 r1 c1 b1 hhD1 hhD2 h1
  obtain ⟨hv2, hlen2, hr2, hc2, hb2, hcond2⟩ :=
    commit_inv hD v2 r2 c2 b2 hhD1 hhD2 h2
  subst hc1; subst hb1; subst hc2; subst hb2
  -- abbreviations for the reduced blinding scalars and commitment dlogs
  have hr1m : beVal r1 % CURVE_ORDER % CURVE_ORDER ≠ 0 := by
    rwa [Nat.mod_eq_of_lt (Nat.mod_lt _ curve_order_pos)]
  have hrhd1 : beVal r1 % CURVE_ORDER * hD % CURVE_ORDER ≠ 0 :=
    coprime_mul_mod_ne hD _ hco hr1m
  have hr2m : beVal r2 % CURVE_ORDER % CURVE_ORDER ≠ 0 := by
    rwa [Nat.mod_eq_of_lt (Nat.mod_lt _ curve_order_pos)]
  have hrhd2 : beVal r2 % CURVE_ORDER * hD % CURVE_ORDER ≠ 0 :=
    coprime_mul_mod_ne hD _ hco hr2m
  have hk1ne : (v1 + beVal r1 % CURVE_ORDER * hD) % CURVE_ORDER ≠ 0 := by
    by_cases hv0 : v1 = 0
    · subst hv0; rwa [Nat.zero_add]
    · exact (hcond1 hv0).2
  have hk2ne : (v2 + beVal r2 % CURVE_ORDER * hD) % CURVE_ORDER ≠ 0 := by
    by_cases hv0 : v2 = 0
    · subst hv0; rwa [Nat.zero_add]
    · exact (hcond2 hv0).2
  have hk1lt : (v1 + beVal r1 % CURVE_ORDER * hD) % CURVE_ORDER < CURVE_ORDER :=
    Nat.mod_lt _ curve_order_pos
  have hk2lt : (v2 + beVal r2 % CURVE_ORDER * hD) % CURVE_ORDER < CURVE_ORDER :=
    Nat.mod_lt _ curve_order_pos
  -- the summed blinding
  have hrbv_lt : (beVal r1 + beVal r2) % CURVE_ORDER < CURVE_ORDER :=
    Nat.mod_lt _ curve_order_pos
  have hrbv_bytes : beVal (beBytes 32 ((beVal r1 + beVal r2) % CURVE_ORDER)) =
      (beVal r1 + beVal r2) % CURVE_ORDER :=
    beVal_beBytes 32 _ (lt_trans hrbv_lt curve_order_lt)
  have hrbv_mod : beVal (beBytes 32 ((beVal r1 + beVal r2) % CURVE_ORDER)) % CURVE_ORDER =
      (beVal r1 + beVal r2) % CURVE_ORDER := by
    rw [hrbv_bytes, Nat.mod_eq_of_lt hrbv_lt]
  have hrbv_ne : beVal (beBytes 32 ((beVal r1 + beVal r2) % CURVE_ORDER)) % CURVE_ORDER ≠ 0 := by
    rwa [hrbv_mod]
  have hrbvhd : beVal (beBytes 32 ((beVal r1 + beVal r2) % CURVE_ORDER)) % CURVE_ORDER * hD
      % CURVE_ORDER ≠ 0 :=
    coprime_mul_mod_ne hD _ hco (by rwa [Nat.mod_eq_of_lt
      (lt_of_le_of_lt (le_of_eq hrbv_mod) hrbv_lt)])
  -- the key modular identity: sum of the two commitment dlogs equals the
  -- dlog of the commitment under the summed blinding
  have key : ((v1 + beVal r1 % CURVE_ORDER * hD) % CURVE_ORDER +
      (v2 + beVal r2 % CURVE_ORDER * hD) % CURVE_ORDER) % CURVE_ORDER =
      (v1 + v2 + beVal (beBytes 32 ((beVal r1 + beVal r2) % CURVE_ORDER)) % CURVE_ORDER * hD)
        % CURVE_ORDER := by
    rw [hrbv_mod]
    show Nat.ModEq CURVE_ORDER _ _
    calc (v1 + beVal r1 % CURVE_ORDER * hD) % CURVE_ORDER +
        (v2 + beVal r2 % CURVE_ORDER * hD) % CURVE_ORDER
        ≡ (v1 + beVal r1 % CURVE_ORDER * hD) + (v2 + beVal r2 % CURVE_ORDER * hD)
          [MOD CURVE_ORDER] := (Nat.mod_modEq _ _).add (Nat.mod_modEq _ _)
      _ = v1 + v2 + (beVal r1 % CURVE_ORDER + beVal r2 % CURVE_ORDER) * hD := by ring
      _ ≡ v1 + v2 + (beVal r1 + beVal r2) % CURVE_ORDER * hD [MOD CURVE_ORDER] := by
          refine Nat.ModEq.add_left _ (Nat.ModEq.mul_right hD ?_)
          calc beVal r1 % CURVE_ORDER + beVal r2 % CURVE_ORDER
              ≡ beVal r1 + beVal r2 [MOD CURVE_ORDER] :=
                (Nat.mod_modEq _ _).add (Nat.mod_modEq _ _)
            _ ≡ (beVal r1 + beVal r2) % CURVE_ORDER [MOD CURVE_ORDER] :=
                (Nat.mod_modEq _ _).symm
  -- evaluate the left-hand side
  rw [add_commitments]
  simp only [hex_to_bytes_bytes_to_hex _ (ptEncode_bytes_lt _),
    Option.bind_eq_bind, Option.some_bind, Option.pure_def]
  rw [point_add_encode _ _ (Nat.pos_of_ne_zero hk1ne) hk1lt
    (Nat.pos_of_ne_zero hk2ne) hk2lt]
  -- evaluate the right-hand side
  rw [add_blindings]
  simp only [hex_to_bytes_bytes_to_hex r1 hby1, hex_to_bytes_bytes_to_hex r2 hby2,
    Option.bind_eq_bind, Option.some_bind, Option.pure_def,
    hex_to_bytes_bytes_to_hex _ (beBytes_bytes_lt 32 ((beVal r1 + beVal r2) % CURVE_ORDER))]
  rw [commit_eq hD (v1 + v2) _ hhD1 hhD2 hsum (beBytes_length 32 _) hrbv_ne hrbvhd]
  rw [key]
  by_cases hz : (v1 + v2 +
      beVal (beBytes 32 ((beVal r1 + beVal r2) % CURVE_ORDER)) % CURVE_ORDER * hD)
      % CURVE_ORDER = 0
  · rw [if_pos hz, if_pos hz]
    rfl
  · rw [if_neg hz, if_neg hz]
    rfl

/-- Witness for the amended C1 at `hD = 2`, `v1 = v2 = 1`, blindings 1 and 2:
`C1 = 3*G`, `C2 = 5*G`, and both sides give the commitment to 2 with
blinding 3. -/
theorem add_homomorphism_witness :
    add_commitments (bytes_to_hex (ptEncode 3)) (bytes_to_hex (ptEncode 5)) =
      (do
        let bh ← add_blindings (bytes_to_hex (beBytes 32 1)) (bytes_to_hex (beBytes 32 2))
        let bb ← hex_to_bytes bh
        let p ← commit 2 2 bb
        some p.1) :=
  add_homomorphism 2 1 1 (beBytes 32 1) (beBytes 32 2)
    (bytes_to_hex (ptEncode 3)) (bytes_to_hex (beBytes 32 1))
    (bytes_to_hex (ptEncode 5)) (bytes_to_hex (beBytes 32 2))
    (by decide) (by decide) (by decide)
    (fun x hx => beBytes_bytes_lt 32 1 x hx)
    (fun x hx => beBytes_bytes_lt 32 2 x hx)
    (by decide) (by decide) (by decide) (by decide)

/-! Results about the claims on the stealth address protocol. -/

/-- Claim C3: stealth ownership with no false negatives.  For every key pair
produced by `generate_stealth_meta_address` and every stealth address
produced from the meta-address by `generate_stealth_address`,
`check_stealth_address` returns `True` (in particular the view-tag
pre-filter never rejects the true owner, and no exception escapes). -/
theorem stealth_ownership (sha : List Nat → List Nat) (chain : List Char)
    (label : Option (List Char)) (spRand vpRand ephRand : List Nat)
    (m : StealthMetaAddress) (spHex vpHex : List Char)
    (st : StealthAddress) (sec : List Char)
    (hbsp : ∀ x ∈ spRand, x < 256) (hbvp : ∀ x ∈ vpRand, x < 256)
    (hmeta : generate_stealth_meta_address chain label spRand vpRand =
      some (m, spHex, vpHex))
    (hgen : generate_stealth_address sha m ephRand = some (st, sec)) :
    check_stealth_address sha st spHex vpHex = some true := by
  rw [generate_stealth_meta_address] at hmeta
  simp only [privPub, Option.bind_eq_bind, Option.pure_def, Option.bind_eq_some,
    Option.some_inj] at hmeta
  obtain ⟨sp, hsp, vp, hvp, hfin⟩ := hmeta
  obtain ⟨hspv, hsp0, hspN⟩ := validate_secret_inv _ _ hsp
  obtain ⟨hvpv, hvp0, hvpN⟩ := validate_secret_inv _ _ hvp
  subst hspv
  subst hvpv
  injection hfin with hm rest
  injection rest with hsphex hvphex
  subst hm
  subst hsphex
  subst hvphex
  rw [generate_stealth_address] at hgen
  simp only [privPub, Option.bind_eq_bind, Option.pure_def, Option.bind_eq_some,
    Option.some_inj] at hgen
  obtain ⟨e, he, skB, hskB, vkB, hvkB, spendPt, hspendPt, sharedPt, hsharedPt,
    htg, hhtg, viewPt, hviewPt, stealthPt, hstealthPt, vt, hvt, hpair⟩ := hgen
  obtain ⟨hev, he0, heN⟩ := validate_secret_inv _ _ he
  subst hev
  rw [hex_to_bytes_bytes_to_hex _ (ptEncode_bytes_lt _), Option.some_inj] at hskB
  subst hskB
  rw [hex_to_bytes_bytes_to_hex _ (ptEncode_bytes_lt _), Option.some_inj] at hvkB
  subst hvkB
  rw [ptDecode_ptEncode _ hsp0 hspN, Option.some_inj] at hspendPt
  subst hspendPt
  rw [pubMul, validate_secret_beVal ephRand he0 heN, Option.map_some'] at hsharedPt
  rw [Option.some_inj] at hsharedPt
  subst hsharedPt
  obtain ⟨hhtgv, hhtg0, hhtgN⟩ := validate_secret_inv _ _ hhtg
  rw [beVal_beBytes 32 _ (lt_trans (Nat.mod_lt _ curve_order_pos) curve_order_lt)] at hhtgv hhtg0
  subst hhtgv
  rw [ptDecode_ptEncode _ hvp0 hvpN, Option.some_inj] at hviewPt
  subst hviewPt
  rw [pubCombine] at hstealthPt
  by_cases hz : (beVal vpRand +
      beVal (sha (ptEncode (beVal ephRand * beVal spRand % CURVE_ORDER))) % CURVE_ORDER)
      % CURVE_ORDER = 0
  · rw [if_pos hz] at hstealthPt
    exact absurd hstealthPt (by simp)
  rw [if_neg hz, Option.some_inj] at hstealthPt
  subst hstealthPt
  rw [Prod.mk.injEq] at hpair
  obtain ⟨hst, hsec⟩ := hpair
  subst hst
  subst hsec
  -- now evaluate the ownership check
  rw [check_stealth_address]
  simp only [Option.bind_eq_bind, Option.pure_def,
    hex_to_bytes_bytes_to_hex spRand hbsp, hex_to_bytes_bytes_to_hex vpRand hbvp,
    Option.some_bind]
  simp only [hex_to_bytes_bytes_to_hex _ (ptEncode_bytes_lt _), Option.some_bind]
  rw [ptDecode_ptEncode _ he0 heN]
  simp only [Option.some_bind]
  rw [pubMul, validate_secret_beVal spRand hsp0 hspN, Option.map_some']
  simp only [Option.some_bind]
  rw [Nat.mul_comm (beVal spRand) (beVal ephRand)]
  rw [hvt]
  simp only [Option.some_bind]
  rw [if_neg (fun hc => hc rfl)]
  have hsmod : (beVal vpRand +
      beVal (sha (ptEncode (beVal ephRand * beVal spRand % CURVE_ORDER))))
      % CURVE_ORDER =
      (beVal vpRand +
        beVal (sha (ptEncode (beVal ephRand * beVal spRand % CURVE_ORDER)))
        % CURVE_ORDER) % CURVE_ORDER := (Nat.add_mod_mod _ _ _).symm
  rw [privPub, hsmod, validate_secret_beVal _
    (by rw [beVal_beBytes 32 _ (lt_trans (Nat.mod_lt _ curve_order_pos) curve_order_lt)]
        exact Nat.pos_of_ne_zero hz)
    (by rw [beVal_beBytes 32 _ (lt_trans (Nat.mod_lt _ curve_order_pos) curve_order_lt)]
        exact Nat.mod_lt _ curve_order_pos)]
  simp only [Option.some_bind]
  rw [beVal_beBytes 32 _ (lt_trans (Nat.mod_lt _ curve_order_pos) curve_order_lt)]
  simp

set_option maxRecDepth 10000 in
/-- Witness for C3: keys 1 and 3, ephemeral scalar 5, hash constantly the
scalar 1; the stealth address is `(3+1)*G` and the ownership check accepts. -/
theorem stealth_ownership_witness :
    check_stealth_address (fun _ => beBytes 32 1)
      ⟨bytes_to_hex (ptEncode 4), bytes_to_hex (ptEncode 5), 0⟩
      (bytes_to_hex (beBytes 32 1)) (bytes_to_hex (beBytes 32 3)) = some true :=
  stealth_ownership (fun _ => beBytes 32 1) ['e'] none
    (beBytes 32 1) (beBytes 32 3) (beBytes 32 5)
    ⟨bytes_to_hex (ptEncode 1), bytes_to_hex (ptEncode 3), ['e'], none⟩
    (bytes_to_hex (beBytes 32 1)) (bytes_to_hex (beBytes 32 3))
    ⟨bytes_to_hex (ptEncode 4), bytes_to_hex (ptEncode 5), 0⟩
    (bytes_to_hex (beBytes 32 1))
    (fun x hx => beBytes_bytes_lt 32 1 x hx)
    (fun x hx => beBytes_bytes_lt 32 3 x hx)
    (by decide) (by decide)

/-- Claim C4: derivation correctness.  For every stealth address produced by
`generate_stealth_address` from a generated meta-address, the private key
scalar returned by `derive_stealth_private_key`, multiplied by the base
point `G`, is the compressed point stored in `stealth.address`. -/
theorem derivation_correctness (sha : List Nat → List Nat) (chain : List Char)
    (label : Option (List Char)) (spRand vpRand ephRand : List Nat)
    (m : StealthMetaAddress) (spHex vpHex : List Char)
    (st : StealthAddress) (sec : List Char) (rec : StealthAddressRecovery)
    (hbsp : ∀ x ∈ spRand, x < 256) (hbvp : ∀ x ∈ vpRand, x < 256)
    (hmeta : generate_stealth_meta_address chain label spRand vpRand =
      some (m, spHex, vpHex))
    (hgen : generate_stealth_address sha m ephRand = some (st, sec))
    (hder : derive_stealth_private_key sha st spHex vpHex = some rec) :
    ∀ pk, hex_to_bytes rec.private_key = some pk →
      point_multiply (beVal pk) G_BYTES = hex_to_bytes st.address := by
  rw [generate_stealth_meta_address] at hmeta
  simp only [privPub, Option.bind_eq_bind, Option.pure_def, Option.bind_eq_some,
    Option.some_inj] at hmeta
  obtain ⟨sp, hsp, vp, hvp, hfin⟩ := hmeta
  obtain ⟨hspv, hsp0, hspN⟩ := validate_secret_inv _ _ hsp
  obtain ⟨hvpv, hvp0, hvpN⟩ := validate_secret_inv _ _ hvp
  subst hspv
  subst hvpv
  injection hfin with hm rest
  injection rest with hsphex hvphex
  subst hm
  subst hsphex
  subst hvphex
  rw [generate_stealth_address] at hgen
  simp only [privPub, Option.bind_eq_bind, Option.pure_def, Option.bind_eq_some,
    Option.some_inj] at hgen
  obtain ⟨e, he, skB, hskB, vkB, hvkB, spendPt, hspendPt, sharedPt, hsharedPt,
    htg, hhtg, viewPt, hviewPt, stealthPt, hstealthPt, vt, hvt, hpair⟩ := hgen
  obtain ⟨hev, he0, heN⟩ := validate_secret_inv _ _ he
  subst hev
  rw [hex_to_bytes_bytes_to_hex _ (ptEncode_bytes_lt _), Option.some_inj] at hskB
  subst hskB
  rw [hex_to_bytes_bytes_to_hex _ (ptEncode_bytes_lt _), Option.some_inj] at hvkB
  subst hvkB
  rw [ptDecode_ptEncode _ hsp0 hspN, Option.some_inj] at hspendPt
  subst hspendPt
  rw [pubMul, validate_secret_beVal ephRand he0 heN, Option.map_some'] at hsharedPt
  rw [Option.some_inj] at hsharedPt
  subst hsharedPt
  obtain ⟨hhtgv, hhtg0, hhtgN⟩ := validate_secret_inv _ _ hhtg
  rw [beVal_beBytes 32 _ (lt_trans (Nat.mod_lt _ curve_order_pos) curve_order_lt)]
    at hhtgv hhtg0
  subst hhtgv
  rw [ptDecode_ptEncode _ hvp0 hvpN, Option.some_inj] at hviewPt
  subst hviewPt
  rw [pubCombine] at hstealthPt
  by_cases hz : (beVal vpRand +
      beVal (sha (ptEncode (beVal ephRand * beVal spRand % CURVE_ORDER))) % CURVE_ORDER)
      % CURVE_ORDER = 0
  · rw [if_pos hz] at hstealthPt
    exact absurd hstealthPt (by simp)
  rw [if_neg hz, Option.some_inj] at hstealthPt
  subst hstealthPt
  rw [Prod.mk.injEq] at hpair
  obtain ⟨hst, hsec⟩ := hpair
  subst hst
  subst hsec
  -- evaluate the derivation
  rw [derive_stealth_private_key] at hder
  simp only [Option.bind_eq_bind, Option.pure_def,
    hex_to_bytes_bytes_to_hex spRand hbsp, hex_to_bytes_bytes_to_hex vpRand hbvp,
    Option.some_bind] at hder
  simp only [hex_to_bytes_bytes_to_hex _ (ptEncode_bytes_lt _), Option.some_bind] at hder
  rw [ptDecode_ptEncode _ he0 heN] at hder
  simp only [Option.some_bind] at hder
  rw [pubMul, validate_secret_beVal spRand hsp0 hspN, Option.map_some'] at hder
  simp only [Option.some_bind, Option.some_inj] at hder
  rw [Nat.mul_comm (beVal spRand) (beVal ephRand)] at hder
  subst hder
  intro pk hpk
  simp only [hex_to_bytes_bytes_to_hex _ (beBytes_bytes_lt 32 _), Option.some_inj] at hpk
  subst hpk
  rw [beVal_beBytes 32 _ (lt_trans (Nat.mod_lt _ curve_order_pos) curve_order_lt)]
  rw [Nat.add_mod_mod]
  rw [point_multiply_G _
    (Nat.pos_of_ne_zero (by rwa [Nat.add_mod_mod] at hz))
    (Nat.mod_lt _ curve_order_pos)]
  rw [hex_to_bytes_bytes_to_hex _ (ptEncode_bytes_lt _), Option.some_inj]

set_option maxRecDepth 10000 in
/-- Witness for C4 with the inputs of the C3 witness: the derived scalar is
`(3 + 1) mod n = 4` and `4*G` is the stealth address. -/
theorem derivation_correctness_witness :
    point_multiply (beVal (beBytes 32 4)) G_BYTES =
      hex_to_bytes (StealthAddress.address
        ⟨bytes_to_hex (ptEncode 4), bytes_to_hex (ptEncode 5), 0⟩) :=
  derivation_correctness (fun _ => beBytes 32 1) ['e'] none
    (beBytes 32 1) (beBytes 32 3) (beBytes 32 5)
    ⟨bytes_to_hex (ptEncode 1), bytes_to_hex (ptEncode 3), ['e'], none⟩
    (bytes_to_hex (beBytes 32 1)) (bytes_to_hex (beBytes 32 3))
    ⟨bytes_to_hex (ptEncode 4), bytes_to_hex (ptEncode 5), 0⟩
    (bytes_to_hex (beBytes 32 1))
    ⟨bytes_to_hex (ptEncode 4), bytes_to_hex (ptEncode 5),
      bytes_to_hex (beBytes 32 4)⟩
    (fun x hx => beBytes_bytes_lt 32 1 x hx)
    (fun x hx => beBytes_bytes_lt 32 3 x hx)
    (by decide) (by decide) (by decide)
    (beBytes 32 4) (by decide)

set_option maxRecDepth 10000 in
/-- Claim C8 fails as stated: when the hash of the shared secret is the zero
scalar, `generate_stealth_address` does not redraw the ephemeral scalar and
produce an address — the `PrivateKey` constructor rejects the zero secret
and the call fails (here with a hash function that always returns zero, on
a valid meta-address and ephemeral draw). -/
theorem zero_hash_redraw_counterexample :
    generate_stealth_address (fun _ => beBytes 32 0)
      { spending_key := bytes_to_hex (ptEncode 1),
        viewing_key := bytes_to_hex (ptEncode 1),
        chain := ['e'], label := none }
      (beBytes 32 1) = none := by decide

/-- Claim C8 (amended): `generate_stealth_address` fails (raises) when the
hash scalar is zero mod `n` rather than redrawing; consequently every
returned stealth address was computed from a shared-secret hash `h` with
`h mod n ≠ 0` — the returned secret decodes to a byte string whose value is
nonzero mod `n`. -/
theorem returned_hash_scalar_nonzero (sha : List Nat → List Nat)
    (m : StealthMetaAddress) (ephRand : List Nat)
    (st : StealthAddress) (sec : List Char)
    (hsha : ∀ b : List Nat, ∀ x ∈ sha b, x < 256)
    (hgen : generate_stealth_address sha m ephRand = some (st, sec)) :
    ∀ bs, hex_to_bytes sec = some bs → beVal bs % CURVE_ORDER ≠ 0 := by
  rw [generate_stealth_address] at hgen
  simp only [privPub, Option.bind_eq_bind, Option.pure_def, Option.bind_eq_some,
    Option.some_inj] at hgen
  obtain ⟨e, he, skB, hskB, vkB, hvkB, spendPt, hspendPt, sharedPt, hsharedPt,
    htg, hhtg, viewPt, hviewPt, stealthPt, hstealthPt, vt, hvt, hpair⟩ := hgen
  obtain ⟨hhtgv, hhtg0, hhtgN⟩ := validate_secret_inv _ _ hhtg
  rw [beVal_beBytes 32 _ (lt_trans (Nat.mod_lt _ curve_order_pos) curve_order_lt)] at hhtg0
  rw [Prod.mk.injEq] at hpair
  obtain ⟨hst, hsec⟩ := hpair
  subst hsec
  intro bs hbs
  rw [hex_to_bytes_bytes_to_hex _ (hsha _), Option.some_inj] at hbs
  subst hbs
  exact Nat.pos_iff_ne_zero.mp hhtg0

set_option maxRecDepth 10000 in
/-- Witness for the amended C8 on the C3 witness run: the returned secret is
the hash byte string of value 1, and `1 mod n ≠ 0`. -/
theorem returned_hash_scalar_nonzero_witness :
    beVal (beBytes 32 1) % CURVE_ORDER ≠ 0 :=
  returned_hash_scalar_nonzero (fun _ => beBytes 32 1)
    ⟨bytes_to_hex (ptEncode 1), bytes_to_hex (ptEncode 3), ['e'], none⟩
    (beBytes 32 5)
    ⟨bytes_to_hex (ptEncode 4), bytes_to_hex (ptEncode 5), 0⟩
    (bytes_to_hex (beBytes 32 1))
    (fun _ x hx => beBytes_bytes_lt 32 1 x hx)
    (by decide)
    (beBytes 32 1) (by decide)

/-- A separator-free list splits to itself. -/
theorem pySplit_no_sep (sep : Char) (l : List Char) (h : sep ∉ l) :
    pySplit sep l = [l] := by
  induction l with
  | nil => rfl
  | cons c rest ih =>
    have hc : ¬ c = sep := fun hcc => h (hcc ▸ List.mem_cons_self c rest)
    have hr : sep ∉ rest := fun hm => h (List.mem_cons_of_mem c hm)
    rw [pySplit, if_neg hc, ih hr]

/-- Splitting a list that starts with a separator-free prefix followed by
the separator peels off the prefix. -/
theorem pySplit_append (sep : Char) (s1 rest : List Char) (h : sep ∉ s1) :
    pySplit sep (s1 ++ sep :: rest) = s1 :: pySplit sep rest := by
  induction s1 with
  | nil =>
    rw [List.nil_append, pySplit, if_pos rfl]
  | cons c t ih =>
    have hc : ¬ c = sep := fun hcc => h (hcc ▸ List.mem_cons_self c t)
    have ht : sep ∉ t := fun hm => h (List.mem_cons_of_mem c hm)
    rw [List.cons_append, pySplit, if_neg hc, ih ht]

/-- A hex digit character is never a colon. -/
theorem digitChar_ne_colon (a : Nat) (h : a < 16) : Nat.digitChar a ≠ ':' := by
  interval_cases a <;> decide

/-- Hex strings produced by `bytes_to_hex` contain no colon. -/
theorem colon_not_mem_bytes_to_hex (bs : List Nat) (h : ∀ x ∈ bs, x < 256) :
    ':' ∉ bytes_to_hex bs := by
  rw [bytes_to_hex]
  intro hmem
  simp only [List.mem_cons, List.mem_flatten, List.mem_map] at hmem
  rcases hmem with hc | hc | ⟨l, ⟨v, hv, hl⟩, hcl⟩
  · exact absurd hc (by decide)
  · exact absurd hc (by decide)
  · subst hl
    simp only [List.mem_cons, List.mem_singleton] at hcl
    have hv16a : v / 16 < 16 := by have := h v hv; omega
    have hv16b : v % 16 < 16 := Nat.mod_lt _ (by norm_num)
    rcases hcl with hcl | hcl | hcl
    · exact digitChar_ne_colon _ hv16a hcl.symm
    · exact digitChar_ne_colon _ hv16b hcl.symm
    · simp at hcl

set_option maxRecDepth 10000 in
/-- Claim C7 fails as stated: for a meta-address generated WITH a label,
decoding the encoding does not return the original meta-address — the label
is not part of the textual form and decodes to `none`. -/
theorem meta_roundtrip_counterexample :
    (do
      let t ← generate_stealth_meta_address ['e'] (some ['x'])
        (beBytes 32 1) (beBytes 32 3)
      decode_stealth_meta_address (encode_stealth_meta_address t.1)) ≠
    (do
      let t ← generate_stealth_meta_address ['e'] (some ['x'])
        (beBytes 32 1) (beBytes 32 3)
      some t.1) := by decide

/-- Claim C7 (amended): for every generated meta-address whose chain tag
contains no colon, `decode ∘ encode` returns the meta-address with the label
erased to `none`; the round trip is the identity exactly on label-free
meta-addresses. -/
theorem meta_roundtrip_label_erased (chain : List Char) (label : Option (List Char))
    (spRand vpRand : List Nat) (m : StealthMetaAddress) (spHex vpHex : List Char)
    (hchain : ':' ∉ chain)
    (hmeta : generate_stealth_meta_address chain label spRand vpRand =
      some (m, spHex, vpHex)) :
    decode_stealth_meta_address (encode_stealth_meta_address m) =
      some { spending_key := m.spending_key, viewing_key := m.viewing_key,
             chain := m.chain, label := none } := by
  rw [generate_stealth_meta_address] at hmeta
  simp only [privPub, Option.bind_eq_bind, Option.pure_def, Option.bind_eq_some,
    Option.some_inj] at hmeta
  obtain ⟨sp, hsp, vp, hvp, hfin⟩ := hmeta
  obtain ⟨hspv, hsp0, hspN⟩ := validate_secret_inv _ _ hsp
  obtain ⟨hvpv, hvp0, hvpN⟩ := validate_secret_inv _ _ hvp
  subst hspv
  subst hvpv
  injection hfin with hm rest
  subst hm
  rw [encode_stealth_meta_address]
  have hshape :
      (('s' :: 'i' :: 'p' :: ':' :: chain) ++
        (':' :: bytes_to_hex (ptEncode (beVal spRand))) ++
        (':' :: bytes_to_hex (ptEncode (beVal vpRand)))) =
      ['s', 'i', 'p'] ++ ':' ::
        (chain ++ ':' ::
          (bytes_to_hex (ptEncode (beVal spRand)) ++ ':' ::
            bytes_to_hex (ptEncode (beVal vpRand)))) := by
    simp
  rw [decode_stealth_meta_address]
  rw [hshape,
    pySplit_append ':' ['s', 'i', 'p'] _ (by decide),
    pySplit_append ':' chain _ hchain,
    pySplit_append ':' _ _ (colon_not_mem_bytes_to_hex _ (ptEncode_bytes_lt _)),
    pySplit_no_sep ':' _ (colon_not_mem_bytes_to_hex _ (ptEncode_bytes_lt _))]
  simp

set_option maxRecDepth 10000 in
/-- Witness for the amended C7: a labelled meta-address decodes back with
the label replaced by `none` and all other components intact. -/
theorem meta_roundtrip_label_erased_witness :
    decode_stealth_meta_address (encode_stealth_meta_address
      ⟨bytes_to_hex (ptEncode 1), bytes_to_hex (ptEncode 3), ['e'], some ['x']⟩) =
      some ⟨bytes_to_hex (ptEncode 1), bytes_to_hex (ptEncode 3), ['e'], none⟩ :=
  meta_roundtrip_label_erased ['e'] (some ['x']) (beBytes 32 1) (beBytes 32 3)
    ⟨bytes_to_hex (ptEncode 1), bytes_to_hex (ptEncode 3), ['e'], some ['x']⟩
    (bytes_to_hex (beBytes 32 1)) (bytes_to_hex (beBytes 32 3))
    (by decide) (by decide)

set_option maxRecDepth 10000 in
/-- Claim C5 fails on `check_stealth_address`: the three `hex_to_bytes`
calls precede the `try` block, so a malformed hex spending key (here the
string `zz`) raises a `ValueError` out of the function instead of returning
`False` (`none` models the escaping exception).  `verify_opening`, whose
whole body is inside its `try`, is `Bool`-valued on all inputs. -/
theorem check_stealth_address_raises_on_malformed_hex :
    check_stealth_address (fun _ => beBytes 32 1)
      ⟨bytes_to_hex (ptEncode 1), bytes_to_hex (ptEncode 1), 0⟩
      ['z', 'z'] (bytes_to_hex (beBytes 32 1)) = none := by decide

/-! Results about the claims on the viewing-key layer. -/

/-- Claim C9: AEAD round-trip.  For every 32-byte viewing key, 24-byte
nonce and plaintext, decrypting the payload produced by
`encrypt_for_viewing_key` returns exactly the plaintext.  The external
XChaCha20-Poly1305 cipher is a parameter (`ccEnc`, `ccDec`) assumed to
satisfy the AEAD correctness contract (16-byte tags, byte-valued output,
decrypt-verify inverts encrypt). -/
theorem aead_roundtrip
    (ccEnc : List Nat → List Nat → List Nat → List Nat × List Nat)
    (ccDec : List Nat → List Nat → List Nat → List Nat → Option (List Nat))
    (key nonce plaintext : List Nat) (payload : EncryptedPayload)
    (hkey : key.length = 32) (hkb : ∀ x ∈ key, x < 256)
    (hnonce : nonce.length = 24) (hnb : ∀ x ∈ nonce, x < 256)
    (hpb : ∀ x ∈ plaintext, x < 256)
    (htag : ∀ k n p, (ccEnc k n p).2.length = 16)
    (hbytes : ∀ k n p, (∀ x ∈ p, x < 256) →
      (∀ x ∈ (ccEnc k n p).1, x < 256) ∧ (∀ x ∈ (ccEnc k n p).2, x < 256))
    (hcorrect : ∀ k n p, ccDec k n (ccEnc k n p).1 (ccEnc k n p).2 = some p)
    (henc : encrypt_for_viewing_key ccEnc (bytes_to_hex key) plaintext nonce =
      some payload) :
    decrypt_with_viewing_key ccDec (bytes_to_hex key) payload = some plaintext := by
  have hnew : chaChaNew key nonce = some () := by
    rw [chaChaNew, if_pos ⟨hkey, Or.inr (Or.inr hnonce)⟩]
  rw [encrypt_for_viewing_key] at henc
  simp only [hex_to_bytes_bytes_to_hex key hkb, Option.bind_eq_bind, Option.some_bind,
    Option.pure_def, hnew, Option.some_inj] at henc
  subst henc
  obtain ⟨hctb, htagb⟩ := hbytes key nonce plaintext hpb
  have hcwtb : ∀ x ∈ (ccEnc key nonce plaintext).1 ++ (ccEnc key nonce plaintext).2,
      x < 256 := by
    intro x hx
    rcases List.mem_append.mp hx with hx | hx
    · exact hctb x hx
    · exact htagb x hx
  rw [decrypt_with_viewing_key]
  simp only [hex_to_bytes_bytes_to_hex key hkb, hex_to_bytes_bytes_to_hex nonce hnb,
    hex_to_bytes_bytes_to_hex _ hcwtb, Option.bind_eq_bind, Option.some_bind,
    Option.pure_def, hnew]
  have hlen : ((ccEnc key nonce plaintext).1 ++ (ccEnc key nonce plaintext).2).length - 16 =
      (ccEnc key nonce plaintext).1.length := by
    rw [List.length_append, htag key nonce plaintext]
    omega
  rw [hlen, List.take_left, List.drop_left]
  exact hcorrect key nonce plaintext

/-- Witness for C9 with an echo cipher (identity encryption, all-zero
16-byte tag), key 1, nonce 7 and a two-byte plaintext. -/
theorem aead_roundtrip_witness :
    decrypt_with_viewing_key
      (fun _ _ c t => if t = List.replicate 16 0 then some c else none)
      (bytes_to_hex (beBytes 32 1))
      ⟨bytes_to_hex ([104, 105] ++ List.replicate 16 0), bytes_to_hex (beBytes 24 7)⟩ =
      some [104, 105] :=
  aead_roundtrip
    (fun _ _ p => (p, List.replicate 16 0))
    (fun _ _ c t => if t = List.replicate 16 0 then some c else none)
    (beBytes 32 1) (beBytes 24 7) [104, 105]
    ⟨bytes_to_hex ([104, 105] ++ List.replicate 16 0), bytes_to_hex (beBytes 24 7)⟩
    (beBytes_length 32 1)
    (fun x hx => beBytes_bytes_lt 32 1 x hx)
    (beBytes_length 24 7)
    (fun x hx => beBytes_bytes_lt 24 7 x hx)
    (by decide)
    (fun _ _ _ => rfl)
    (fun _ _ p hp => ⟨hp, by
      intro x hx
      rw [List.eq_of_mem_replicate hx]
      norm_num⟩)
    (fun _ _ _ => by simp)
    (by decide)
